import Mathlib

/-!
Verification of `listing-file-server` (`src/server.rs`).

The development shallowly embeds the `ListingFileServer` handler:

* Filesystem paths are lists of path segments (`List String`); joining paths
  is list append, mirroring `PathBuf::join` on already-split segments.
* The ambient filesystem is an abstract record `FS` of the probes the source
  performs: `is_dir`, `NamedFile::open` success, and `read_dir` (which yields
  the enumerated entries in the filesystem's native order, with `none`
  elements standing for per-entry `Err` results that the source filters out
  with `.filter(|res| res.is_ok())`, and an overall `none` standing for a
  failed `read_dir`).
* `rocket::fs::Options` is a set of three independent boolean flags.
* The handler's possible results are the `Outcome` inductive; `notFound` is
  included so that "a `NotFound` outcome is never produced" is a meaningful
  statement about `handle`.
* The template renderer is an external collaborator
  (`Fn(String, Vec<String>) -> Template`); the `renderListing` outcome
  carries the two arguments the source passes to it.
-/

/-- Boolean option flags of `rocket::fs::Options` that `server.rs` reads via
`options.contains(..)`: `DotFiles`, `Index`, `NormalizeDirs`. -/
structure Options where
  dotFiles : Bool
  index : Bool
  normalizeDirs : Bool
deriving DecidableEq

/-- Model of `rocket::fs::Options::None`: no flags enabled. -/
def Options.noneSet : Options := ⟨false, false, false⟩

/-- Abstract filesystem: the three probes `handle` performs.
`readDir` returns the entry names in native enumeration order; a `none`
element is an entry whose read failed (`Err` in the `read_dir` iterator),
and an overall `none` means `read_dir` itself failed. -/
structure FS where
  isDir : List String → Bool
  openOk : List String → Bool
  readDir : List String → Option (List (Option String))

/-- Model of the `ListingFileServer` struct (`server.rs` lines 33-40).
The `template_renderer` field is an external capability
(`Fn(String, Vec<String>) -> Template`) and is not part of the decision
logic, so it is left out of the state; the arguments the handler would pass
to it are carried by the `renderListing` outcome instead. -/
structure ListingFileServer where
  root : List String
  options : Options
  rank : Int
deriving DecidableEq

/-- The `DEFAULT_RANK` constant of the source (`server.rs` line 44). -/
def ListingFileServer.defaultRank : Int := 10

/-- Model of `ListingFileServer::new` (`server.rs` lines 72-96): if the given
path is not a directory the source panics ("Aborting early to prevent
inevitable handler failure"), which we model as `none`; otherwise the
constructed server is returned. -/
def ListingFileServer.new (fs : FS) (path : List String) (opts : Options) :
    Option ListingFileServer :=
  if fs.isDir path then
    some { root := path, options := opts, rank := ListingFileServer.defaultRank }
  else
    none

/-- Result of one `handle` invocation, following §4.2 of the spec.
`redirect` carries the new URI path; `serveFile` the opened path;
`renderListing` the two arguments handed to the template renderer.
`notFound` is listed so that its absence from `handle`'s range is a
provable statement. -/
inductive Outcome where
  | redirect (location : String)
  | serveFile (path : List String)
  | renderListing (directory : String) (entries : List String)
  | forward
  | notFound
deriving DecidableEq

/-- Model of Rust's `str::ends_with('/')`-style check on a single character:
the last character of the string equals `c`. -/
def strEndsWith (s : String) (c : Char) : Bool :=
  s.data.getLast? == some c

/-- Model of Rust's `str::starts_with('.')`-style check on a single
character: the first character of the string equals `c`. -/
def strStartsWith (s : String) (c : Char) : Bool :=
  s.data.head? == some c

/-- Modelled from the spec: the path validation performed by Rocket's
`Segments::to_path_buf(allow_dotfiles)` (`server.rs` lines 126-129), whose
implementation lives in the Rocket dependency, not in this repository.
Per §4.1 of the spec, segments equal to the parent-directory marker (or any
segment that would resolve outside the root) yield "no match", and when
`allow_dotfiles` is false any segment beginning with a dot also yields
"no match"; otherwise the validated relative path is the segment list
itself. -/
def resolveSegments (allowDotfiles : Bool) (segs : List String) :
    Option (List String) :=
  if segs.any (fun s => s == "..") then
    none
  else if !allowDotfiles && segs.any (fun s => strStartsWith s '.') then
    none
  else
    some segs

/-- Model of `.replace('\\', "/")` (`server.rs` line 163): every backslash
character is replaced by a forward slash. -/
def replaceBackslashes (s : String) : String :=
  String.mk (s.data.map (fun c => if c = '\\' then '/' else c))

/-- Rendering of the relative request path (`req_path.into_os_string()
.into_string()`, `server.rs` lines 158-162): the segments joined by the
path separator. -/
def joinSegments : List String → String
  | [] => ""
  | [s] => s
  | s :: rest => s ++ "/" ++ joinSegments rest

/-- The directory label handed to the template renderer (`server.rs` lines
155-168): a leading `/`, the request path with backslashes normalized, and
a trailing `/` appended when not already present. -/
def directoryLabel (reqPath : List String) : String :=
  let s := "/" ++ replaceBackslashes (joinSegments reqPath)
  if strEndsWith s '/' then s else s ++ "/"

/-- Lexicographic comparison of character lists, comparing characters by
code point. This is the order Rust's derived `Ord` on `String` induces
(byte-wise comparison of UTF-8 agrees with code-point order). -/
def lexLE : List Char → List Char → Bool
  | [], _ => true
  | _ :: _, [] => false
  | a :: as, b :: bs => if a < b then true else if b < a then false else lexLE as bs

/-- Model of `String`'s `Ord` comparison used by `sort_unstable` on the
entry names: lexicographic on the character sequence. -/
def strLE (s t : String) : Bool := lexLE s.data t.data

/-- Comparison on the sort keys `(Reverse(is_dir), entry)` built at
`server.rs` line 182 and sorted with the derived lexicographic order at
line 185: `Reverse` inverts the `Bool` order (so `is_dir = true` sorts
first), ties are broken by the name under the string order. -/
def entryLE (a b : Bool × String) : Prop :=
  (a.1 = true ∧ b.1 = false) ∨ (a.1 = b.1 ∧ strLE a.2 b.2 = true)

instance : DecidableRel entryLE := fun a b => by
  unfold entryLE
  infer_instance

/-- The directory-listing computation of `server.rs` lines 170-185 and 191:
failed entries are dropped (`.filter(|res| res.is_ok())`), each surviving
name is probed with `p.join(&entry).is_dir()`, directories get a trailing
`/` pushed onto their name, the `(Reverse(is_dir), entry)` pairs are
sorted, and the names are extracted in sorted order.  `List.insertionSort`
stands in for `sort_unstable`: both produce a permutation of the input that
is sorted for the comparison, and (the comparison being antisymmetric,
total, and transitive) such a list is unique. -/
def listEntries (fs : FS) (p : List String) (rawEntries : List (Option String)) :
    List String :=
  let entry_list := (rawEntries.filterMap id).map (fun name =>
    let is_dir := fs.isDir (p ++ [name])
    (is_dir, if is_dir then name ++ "/" else name))
  (List.insertionSort entryLE entry_list).map (fun e => e.2)

/-- Model of `ListingFileServer::handle` (`server.rs` lines 120-203).
`uriPath` is `req.uri().path()` (used only for the trailing-slash test and
the redirect target) and `segs` are the decoded request segments; the
source derives both from the same request. The `read_dir` failure branch
(`server.rs` line 196) forwards, exactly as the source does. -/
def handle (server : ListingFileServer) (fs : FS) (uriPath : String)
    (segs : List String) : Outcome :=
  let opts := server.options
  match resolveSegments opts.dotFiles segs with
  | some rp =>
    let p := server.root ++ rp
    if fs.isDir p then
      if opts.normalizeDirs && !(strEndsWith uriPath '/') then
        Outcome.redirect (uriPath ++ "/")
      else if opts.index && fs.openOk (p ++ ["index.html"]) then
        Outcome.serveFile (p ++ ["index.html"])
      else
        match fs.readDir p with
        | some dir_entries =>
          Outcome.renderListing (directoryLabel rp) (listEntries fs p dir_entries)
        | none => Outcome.forward
    else
      if fs.openOk p then Outcome.serveFile p else Outcome.forward
  | none => Outcome.forward

/-- Claim-side key comparison, following C2's words: sort ascending by the
key `(not is_directory, name)` — strictly smaller negated directory flag
first (`false < true` on `Bool`, so directories precede files), ties broken
by the (marker-adorned) entry name under the lexicographic string order. -/
def specKeyLE (a b : Bool × String) : Prop :=
  (!a.1 = false ∧ !b.1 = true) ∨ (!a.1 = !b.1 ∧ strLE a.2 b.2 = true)

instance : DecidableRel specKeyLE := fun a b => by
  unfold specKeyLE
  infer_instance

/-- Claim-side listing, following C2's words: the directory's entries,
annotated with their kind and marker, sorted ascending by the key
`(not is_directory, name)`. -/
def specListing (fs : FS) (p : List String) (rawEntries : List (Option String)) :
    List String :=
  let entries := (rawEntries.filterMap id).map (fun name =>
    let is_dir := fs.isDir (p ++ [name])
    (is_dir, if is_dir then name ++ "/" else name))
  (List.insertionSort specKeyLE entries).map (fun e => e.2)

/-- Concrete filesystem used for instantiations: a root directory `root`
containing a directory `docs`, which holds directories `B` and `C`, a
regular file `A`, and a regular file `index.html`. -/
def exFS : FS where
  isDir p := p == ["root"] || p == ["root", "docs"] ||
    p == ["root", "docs", "B"] || p == ["root", "docs", "C"]
  openOk p := p == ["root", "docs", "A"] || p == ["root", "docs", "index.html"]
  readDir p :=
    if p == ["root", "docs"] then some [some "C", some "A", some "B"] else none

/-- Concrete filesystem in which the directory `root/locked` exists but
cannot be enumerated (`read_dir` fails, e.g. for lack of permission). -/
def lockedFS : FS where
  isDir p := p == ["root"] || p == ["root", "locked"]
  openOk _ := false
  readDir _ := none

/-- Concrete server over `root` with no options enabled. -/
def exServer : ListingFileServer :=
  { root := ["root"], options := Options.noneSet, rank := ListingFileServer.defaultRank }

theorem lexLE_cons_iff (a b : Char) (as bs : List Char) :
    lexLE (a :: as) (b :: bs) = true ↔ a < b ∨ (a = b ∧ lexLE as bs = true) := by
  by_cases hab : a < b
  · simp [lexLE, hab]
  · by_cases hba : b < a
    · have hne : a ≠ b := fun h => absurd (h ▸ hba) (lt_irrefl a)
      simp [lexLE, hab, hba, hne]
    · have heq : a = b := le_antisymm (not_lt.mp hba) (not_lt.mp hab)
      simp [lexLE, hab, hba, heq]

theorem lexLE_total : ∀ xs ys : List Char, lexLE xs ys = true ∨ lexLE ys xs = true
  | [], _ => Or.inl rfl
  | _ :: _, [] => Or.inr rfl
  | a :: as, b :: bs => by
    rcases lt_trichotomy a b with hab | heq | hba
    · exact Or.inl ((lexLE_cons_iff a b as bs).mpr (Or.inl hab))
    · rcases lexLE_total as bs with h | h
      · exact Or.inl ((lexLE_cons_iff a b as bs).mpr (Or.inr ⟨heq, h⟩))
      · exact Or.inr ((lexLE_cons_iff b a bs as).mpr (Or.inr ⟨heq.symm, h⟩))
    · exact Or.inr ((lexLE_cons_iff b a bs as).mpr (Or.inl hba))

theorem lexLE_trans : ∀ xs ys zs : List Char,
    lexLE xs ys = true → lexLE ys zs = true → lexLE xs zs = true
  | [], _, _, _, _ => rfl
  | _ :: _, [], _, h, _ => by simp [lexLE] at h
  | _ :: _, _ :: _, [], _, h => by simp [lexLE] at h
  | a :: as, b :: bs, c :: cs, h₁, h₂ => by
    rcases (lexLE_cons_iff a b as bs).mp h₁ with hab | ⟨hab, htl₁⟩ <;>
      rcases (lexLE_cons_iff b c bs cs).mp h₂ with hbc | ⟨hbc, htl₂⟩
    · exact (lexLE_cons_iff a c as cs).mpr (Or.inl (lt_trans hab hbc))
    · exact (lexLE_cons_iff a c as cs).mpr (Or.inl (hbc ▸ hab))
    · exact (lexLE_cons_iff a c as cs).mpr (Or.inl (hab ▸ hbc))
    · exact (lexLE_cons_iff a c as cs).mpr
        (Or.inr ⟨hab.trans hbc, lexLE_trans as bs cs htl₁ htl₂⟩)

theorem lexLE_antisymm : ∀ xs ys : List Char,
    lexLE xs ys = true → lexLE ys xs = true → xs = ys
  | [], [], _, _ => rfl
  | [], _ :: _, _, h => by simp [lexLE] at h
  | _ :: _, [], h, _ => by simp [lexLE] at h
  | a :: as, b :: bs, h₁, h₂ => by
    rcases (lexLE_cons_iff a b as bs).mp h₁ with hab | ⟨hab, htl₁⟩ <;>
      rcases (lexLE_cons_iff b a bs as).mp h₂ with hba | ⟨hba, htl₂⟩
    · exact absurd hba (lt_asymm hab)
    · exact absurd (hba ▸ hab) (lt_irrefl a)
    · exact absurd (hab ▸ hba) (lt_irrefl b)
    · rw [hab, lexLE_antisymm as bs htl₁ htl₂]

theorem strLE_total (s t : String) : strLE s t = true ∨ strLE t s = true :=
  lexLE_total s.data t.data

theorem strLE_trans {s t u : String} (h₁ : strLE s t = true) (h₂ : strLE t u = true) :
    strLE s u = true :=
  lexLE_trans s.data t.data u.data h₁ h₂

theorem strLE_antisymm {s t : String} (h₁ : strLE s t = true) (h₂ : strLE t s = true) :
    s = t :=
  String.ext (lexLE_antisymm s.data t.data h₁ h₂)

instance : IsTotal (Bool × String) entryLE where
  total a b := by
    rcases a with ⟨da, na⟩
    rcases b with ⟨db, nb⟩
    cases da <;> cases db
    · rcases strLE_total na nb with h | h
      · exact Or.inl (Or.inr ⟨rfl, h⟩)
      · exact Or.inr (Or.inr ⟨rfl, h⟩)
    · exact Or.inr (Or.inl ⟨rfl, rfl⟩)
    · exact Or.inl (Or.inl ⟨rfl, rfl⟩)
    · rcases strLE_total na nb with h | h
      · exact Or.inl (Or.inr ⟨rfl, h⟩)
      · exact Or.inr (Or.inr ⟨rfl, h⟩)

instance : IsTrans (Bool × String) entryLE where
  trans a b c hab hbc := by
    rcases hab with ⟨ha, hb⟩ | ⟨hab, hn⟩ <;>
      rcases hbc with ⟨hb', hc⟩ | ⟨hbc, hn'⟩
    · exact Or.inl ⟨ha, hc⟩
    · exact Or.inl ⟨ha, hbc ▸ hb⟩
    · exact Or.inl ⟨hab.trans hb', hc⟩
    · exact Or.inr ⟨hab.trans hbc, strLE_trans hn hn'⟩

instance : IsAntisymm (Bool × String) entryLE where
  antisymm a b hab hba := by
    rcases a with ⟨da, na⟩
    rcases b with ⟨db, nb⟩
    rcases hab with ⟨ha, hb⟩ | ⟨hab, hn⟩ <;>
      rcases hba with ⟨hb', ha'⟩ | ⟨hba, hn'⟩
    · simp_all
    · simp_all
    · simp_all
    · simp only at hab hn hn'
      subst hab
      exact congrArg (Prod.mk da) (strLE_antisymm hn hn')

theorem entryLE_iff_specKeyLE (a b : Bool × String) : entryLE a b ↔ specKeyLE a b := by
  rcases a with ⟨da, na⟩
  rcases b with ⟨db, nb⟩
  cases da <;> cases db <;> simp [entryLE, specKeyLE]

theorem orderedInsert_congr {α : Type} (r s : α → α → Prop) [DecidableRel r]
    [DecidableRel s] (h : ∀ a b, r a b ↔ s a b) (a : α) :
    ∀ l : List α, List.orderedInsert r a l = List.orderedInsert s a l
  | [] => rfl
  | b :: l => by
    by_cases hr : r a b
    · simp [List.orderedInsert, hr, (h a b).mp hr]
    · have hs : ¬ s a b := fun hs => hr ((h a b).mpr hs)
      simp [List.orderedInsert, hr, hs, orderedInsert_congr r s h a l]

theorem insertionSort_congr {α : Type} (r s : α → α → Prop) [DecidableRel r]
    [DecidableRel s] (h : ∀ a b, r a b ↔ s a b) :
    ∀ l : List α, List.insertionSort r l = List.insertionSort s l
  | [] => rfl
  | a :: l => by
    simp [List.insertionSort, insertionSort_congr r s h l, orderedInsert_congr r s h a]

theorem insertionSort_eq_of_perm {l₁ l₂ : List (Bool × String)} (h : l₁.Perm l₂) :
    List.insertionSort entryLE l₁ = List.insertionSort entryLE l₂ :=
  List.eq_of_perm_of_sorted
    ((List.perm_insertionSort entryLE l₁).trans
      (h.trans (List.perm_insertionSort entryLE l₂).symm))
    (List.sorted_insertionSort entryLE l₁) (List.sorted_insertionSort entryLE l₂)

theorem listEntries_perm_eq (fs : FS) (p : List String)
    {r₁ r₂ : List (Option String)} (h : r₁.Perm r₂) :
    listEntries fs p r₁ = listEntries fs p r₂ := by
  have hperm := (h.filterMap id).map (fun name =>
    let is_dir := fs.isDir (p ++ [name])
    (is_dir, if is_dir then name ++ "/" else name))
  exact congrArg (List.map (fun e => e.2)) (insertionSort_eq_of_perm hperm)

theorem directoryLabel_startsWith (rp : List String) :
    strStartsWith (directoryLabel rp) '/' = true := by
  unfold directoryLabel
  have hdata : ("/" ++ replaceBackslashes (joinSegments rp)).data =
      '/' :: (replaceBackslashes (joinSegments rp)).data := by
    rw [String.data_append]; rfl
  by_cases hc : strEndsWith ("/" ++ replaceBackslashes (joinSegments rp)) '/' = true
  · simp only [hc, if_true]
    simp [strStartsWith, hdata]
  · simp only [eq_false_of_ne_true hc, if_false]
    simp [strStartsWith, String.data_append, hdata]

theorem strEndsWith_append_slash (s : String) : strEndsWith (s ++ "/") '/' = true := by
  have h : (s ++ "/").data = s.data ++ ['/'] := by
    rw [String.data_append]
  simp [strEndsWith, h, List.getLast?_concat]

theorem directoryLabel_endsWith (rp : List String) :
    strEndsWith (directoryLabel rp) '/' = true := by
  unfold directoryLabel
  by_cases hc : strEndsWith ("/" ++ replaceBackslashes (joinSegments rp)) '/' = true
  · simp only [hc, if_true]
  · simp only [hc, if_false]
    exact strEndsWith_append_slash _

/-- C1 (evaluation at the failing input): the resolved path `root/locked` is
a directory (it passes the redirect and index rules, all options being
off), its enumeration fails (`readDir` returns `none`), and yet `handle`
returns `Outcome.forward` (`server.rs` line 196) — not an internal-error
outcome distinct from a non-match, contradicting the claim. -/
theorem unreadable_directory_forwards :
    lockedFS.isDir (exServer.root ++ ["locked"]) = true ∧
    lockedFS.readDir (exServer.root ++ ["locked"]) = none ∧
    handle exServer lockedFS "/locked/" ["locked"] = Outcome.forward := by
  decide

/-- C3: a request whose segments contain a parent-directory marker resolves
to no match, and the handler forwards — never serves a file — whatever the
options (in particular whatever `DotFiles`) are. -/
theorem traversal_never_serves :
    ∀ (server : ListingFileServer) (fs : FS) (uriPath : String) (segs : List String),
      ".." ∈ segs →
      resolveSegments server.options.dotFiles segs = none ∧
        handle server fs uriPath segs = Outcome.forward := by
  intro server fs uriPath segs hmem
  have hany : segs.any (fun s => s == "..") = true :=
    List.any_eq_true.mpr ⟨"..", hmem, by simp⟩
  have hres : resolveSegments server.options.dotFiles segs = none := by
    unfold resolveSegments
    simp [hany]
  exact ⟨hres, by simp only [handle, hres]⟩

/-- C3 witness: the traversal request `/docs/../../etc/passwd` forwards. -/
theorem traversal_never_serves_witness :
    resolveSegments exServer.options.dotFiles ["docs", "..", "..", "etc", "passwd"] = none ∧
      handle exServer exFS "/docs/../../etc/passwd" ["docs", "..", "..", "etc", "passwd"] =
        Outcome.forward :=
  traversal_never_serves exServer exFS "/docs/../../etc/passwd"
    ["docs", "..", "..", "etc", "passwd"] (by decide)

/-- C4: constructing the handler with a root that is not a directory fails
(the source panics, modelled as `none`), and any successfully constructed
handler has a directory as its root. -/
theorem new_requires_directory :
    (∀ (fs : FS) (path : List String) (opts : Options),
        fs.isDir path = false → ListingFileServer.new fs path opts = none) ∧
    (∀ (fs : FS) (path : List String) (opts : Options) (server : ListingFileServer),
        ListingFileServer.new fs path opts = some server →
          fs.isDir server.root = true) := by
  constructor
  · intro fs path opts h
    simp [ListingFileServer.new, h]
  · intro fs path opts server h
    by_cases hd : fs.isDir path = true
    · simp only [ListingFileServer.new, hd, if_true, Option.some.injEq] at h
      rw [← h]
      exact hd
    · simp [ListingFileServer.new, hd] at h

/-- C4 witness: constructing over the non-directory `root/docs/A` fails, and
the construction over the directory `root` succeeds with that root. -/
theorem new_requires_directory_witness :
    ListingFileServer.new exFS ["root", "docs", "A"] Options.noneSet = none ∧
      exFS.isDir (ListingFileServer.mk ["root"] Options.noneSet 10).root = true :=
  ⟨new_requires_directory.1 exFS ["root", "docs", "A"] Options.noneSet (by decide),
    new_requires_directory.2 exFS ["root"] Options.noneSet
      (ListingFileServer.mk ["root"] Options.noneSet 10) (by decide)⟩

/-- C9: with `DotFiles` unset, a request containing a segment beginning with
a dot resolves to no match, and the handler forwards. -/
theorem dotfile_forwards :
    ∀ (server : ListingFileServer) (fs : FS) (uriPath : String) (segs : List String),
      server.options.dotFiles = false →
      (∃ s ∈ segs, strStartsWith s '.' = true) →
      resolveSegments server.options.dotFiles segs = none ∧
        handle server fs uriPath segs = Outcome.forward := by
  intro server fs uriPath segs hopt hdot
  obtain ⟨s, hs, hstart⟩ := hdot
  have hres : resolveSegments server.options.dotFiles segs = none := by
    unfold resolveSegments
    by_cases hdd : segs.any (fun t => t == "..") = true
    · simp [hdd]
    · have hany : segs.any (fun t => strStartsWith t '.') = true :=
        List.any_eq_true.mpr ⟨s, hs, hstart⟩
      simp [hdd, hopt, hany]
  exact ⟨hres, by simp only [handle, hres]⟩

/-- C9 witness: the request for `.hidden/secret` forwards when `DotFiles`
is not set. -/
theorem dotfile_forwards_witness :
    resolveSegments exServer.options.dotFiles [".hidden", "secret"] = none ∧
      handle exServer exFS "/.hidden/secret" [".hidden", "secret"] = Outcome.forward :=
  dotfile_forwards exServer exFS "/.hidden/secret" [".hidden", "secret"] (by decide)
    ⟨".hidden", by decide, by decide⟩

/-- C10: every `handle` invocation results in `forward`, a `redirect`, a
`serveFile`, or a `renderListing`; in particular `notFound` is never
produced — every failure path forwards. -/
theorem handle_outcome_cases :
    ∀ (server : ListingFileServer) (fs : FS) (uriPath : String) (segs : List String),
      handle server fs uriPath segs = Outcome.forward ∨
      (∃ loc, handle server fs uriPath segs = Outcome.redirect loc) ∨
      (∃ p, handle server fs uriPath segs = Outcome.serveFile p) ∨
      (∃ lbl ents, handle server fs uriPath segs = Outcome.renderListing lbl ents) := by
  intro server fs uriPath segs
  simp only [handle]
  repeat' split
  all_goals first
    | exact Or.inl rfl
    | exact Or.inr (Or.inl ⟨_, rfl⟩)
    | exact Or.inr (Or.inr (Or.inl ⟨_, rfl⟩))
    | exact Or.inr (Or.inr (Or.inr ⟨_, _, rfl⟩))

/-- Server over `root` with only `NormalizeDirs` enabled. -/
def normServer : ListingFileServer :=
  { root := ["root"], options := ⟨false, false, true⟩, rank := ListingFileServer.defaultRank }

/-- Server over `root` with only `Index` enabled. -/
def indexServer : ListingFileServer :=
  { root := ["root"], options := ⟨false, true, false⟩, rank := ListingFileServer.defaultRank }

/-- C5: with `NormalizeDirs` set, a directory request whose URL path lacks a
trailing slash is answered by a permanent redirect to the same path with
exactly one separator appended; and no request whose URL path already ends
in a slash is ever answered by a redirect. -/
theorem normalize_dirs_redirect :
    (∀ (server : ListingFileServer) (fs : FS) (uriPath : String)
        (segs rp : List String),
      resolveSegments server.options.dotFiles segs = some rp →
      fs.isDir (server.root ++ rp) = true →
      server.options.normalizeDirs = true →
      strEndsWith uriPath '/' = false →
      handle server fs uriPath segs = Outcome.redirect (uriPath ++ "/")) ∧
    (∀ (server : ListingFileServer) (fs : FS) (uriPath : String)
        (segs : List String) (loc : String),
      strEndsWith uriPath '/' = true →
      handle server fs uriPath segs ≠ Outcome.redirect loc) := by
  constructor
  · intro server fs uriPath segs rp hres hdir hnorm hslash
    simp [handle, hres, hdir, hnorm, hslash]
  · intro server fs uriPath segs loc hslash h
    simp only [handle] at h
    repeat' split at h
    all_goals simp_all

/-- C5 witness: `/docs` redirects to `/docs/`; `/docs/` is not redirected. -/
theorem normalize_dirs_redirect_witness :
    handle normServer exFS "/docs" ["docs"] = Outcome.redirect "/docs/" ∧
      handle normServer exFS "/docs/" ["docs"] ≠ Outcome.redirect "/docs/" := by
  constructor
  · have h := normalize_dirs_redirect.1 normServer exFS "/docs" ["docs"] ["docs"]
      (by decide) (by decide) (by decide) (by decide)
    rw [h]
    decide
  · exact normalize_dirs_redirect.2 normServer exFS "/docs/" ["docs"] "/docs/" (by decide)

/-- C6: for a directory request not captured by the `NormalizeDirs` redirect,
if `Index` is set and the directory's `index.html` is openable the outcome
is `serveFile` on that index file (no listing is rendered); if `Index` is
unset and the directory is enumerable the outcome is `renderListing` built
from the directory's entries. -/
theorem index_precedence :
    (∀ (server : ListingFileServer) (fs : FS) (uriPath : String)
        (segs rp : List String),
      resolveSegments server.options.dotFiles segs = some rp →
      fs.isDir (server.root ++ rp) = true →
      (server.options.normalizeDirs = true → strEndsWith uriPath '/' = true) →
      server.options.index = true →
      fs.openOk (server.root ++ rp ++ ["index.html"]) = true →
      handle server fs uriPath segs =
        Outcome.serveFile (server.root ++ rp ++ ["index.html"])) ∧
    (∀ (server : ListingFileServer) (fs : FS) (uriPath : String)
        (segs rp : List String) (entries : List (Option String)),
      resolveSegments server.options.dotFiles segs = some rp →
      fs.isDir (server.root ++ rp) = true →
      (server.options.normalizeDirs = true → strEndsWith uriPath '/' = true) →
      server.options.index = false →
      fs.readDir (server.root ++ rp) = some entries →
      handle server fs uriPath segs =
        Outcome.renderListing (directoryLabel rp)
          (listEntries fs (server.root ++ rp) entries)) := by
  constructor
  · intro server fs uriPath segs rp hres hdir hnored hidx hopen
    have hcond : (server.options.normalizeDirs && !(strEndsWith uriPath '/')) = false := by
      by_cases hn : server.options.normalizeDirs = true
      · simp [hn, hnored hn]
      · simp [eq_false_of_ne_true hn]
    rw [List.append_assoc] at hopen
    simp [handle, hres, hdir, hcond, hidx, hopen]
  · intro server fs uriPath segs rp entries hres hdir hnored hidx hread
    have hcond : (server.options.normalizeDirs && !(strEndsWith uriPath '/')) = false := by
      by_cases hn : server.options.normalizeDirs = true
      · simp [hn, hnored hn]
      · simp [eq_false_of_ne_true hn]
    simp [handle, hres, hdir, hcond, hidx, hread]

/-- C6 witness: with `Index` set the request `/docs/` serves
`root/docs/index.html`; with `Index` unset it renders the listing of
`root/docs`. -/
theorem index_precedence_witness :
    handle indexServer exFS "/docs/" ["docs"] =
        Outcome.serveFile ["root", "docs", "index.html"] ∧
      handle exServer exFS "/docs/" ["docs"] =
        Outcome.renderListing "/docs/" ["B/", "C/", "A"] := by
  constructor
  · have h := index_precedence.1 indexServer exFS "/docs/" ["docs"] ["docs"]
      (by decide) (by decide) (by decide) (by decide) (by decide)
    rw [h]
    decide
  · have h := index_precedence.2 exServer exFS "/docs/" ["docs"] ["docs"]
      [some "C", some "A", some "B"] (by decide) (by decide) (by decide) (by decide)
      (by decide)
    rw [h]
    decide

/-- C8: whenever `handle` renders a listing, the directory label begins and
ends with `/`, and it is the label derived (by `directoryLabel`) from the
resolved request path — `directoryLabel` takes only the request path, not
the resolved filesystem path. -/
theorem renderListing_label_invariant :
    ∀ (server : ListingFileServer) (fs : FS) (uriPath : String) (segs : List String)
      (lbl : String) (ents : List String),
      handle server fs uriPath segs = Outcome.renderListing lbl ents →
      strStartsWith lbl '/' = true ∧ strEndsWith lbl '/' = true ∧
        ∃ rp, resolveSegments server.options.dotFiles segs = some rp ∧
          lbl = directoryLabel rp := by
  intro server fs uriPath segs lbl ents h
  rcases hres : resolveSegments server.options.dotFiles segs with _ | rp
  · simp only [handle, hres] at h
    cases h
  · simp only [handle, hres] at h
    repeat' split at h
    all_goals cases h
    exact ⟨directoryLabel_startsWith rp, directoryLabel_endsWith rp, rp, rfl, rfl⟩

/-- C8 witness: the label rendered for the `/docs/` request is `/docs/`,
which begins and ends with a slash and is derived from the request path. -/
theorem renderListing_label_invariant_witness :
    strStartsWith "/docs/" '/' = true ∧ strEndsWith "/docs/" '/' = true ∧
      ∃ rp, resolveSegments exServer.options.dotFiles ["docs"] = some rp ∧
        "/docs/" = directoryLabel rp :=
  renderListing_label_invariant exServer exFS "/docs/" ["docs"] "/docs/"
    ["B/", "C/", "A"] (by decide)

/-- C2: for every directory snapshot the listing handed to the renderer is
the entries sorted ascending by the key `(not is_directory, name)` — all
directories first, lexicographically among themselves, then all files,
lexicographically among themselves; in particular a directory containing
entries `{B/ (dir), A (file), C/ (dir)}` yields exactly `[B/, C/, A]`,
whatever order the filesystem enumerates them in. -/
theorem listing_sorted_by_key :
    (∀ (fs : FS) (p : List String) (raw : List (Option String)),
      listEntries fs p raw = specListing fs p raw) ∧
    (∀ raw : List (Option String),
      raw.Perm [some "B", some "A", some "C"] →
      listEntries exFS ["root", "docs"] raw = ["B/", "C/", "A"]) := by
  constructor
  · intro fs p raw
    exact congrArg (List.map (fun e => e.2))
      (insertionSort_congr entryLE specKeyLE entryLE_iff_specKeyLE _)
  · intro raw hperm
    rw [listEntries_perm_eq exFS ["root", "docs"] hperm]
    decide

/-- C2 witness: the snapshot enumerated in the order `C, A, B` is listed as
`[B/, C/, A]`. -/
theorem listing_sorted_by_key_witness :
    listEntries exFS ["root", "docs"] [some "C", some "A", some "B"] =
      ["B/", "C/", "A"] :=
  listing_sorted_by_key.2 [some "C", some "A", some "B"] (by decide)

/-- C7: the listing output depends only on the directory snapshot (the
multiset of enumerated entries), not on the filesystem's native enumeration
order; hence two calls on an unchanged directory return the identical
ordered sequence. -/
theorem lister_deterministic :
    ∀ (fs : FS) (p : List String) (raw₁ raw₂ : List (Option String)),
      raw₁.Perm raw₂ →
      listEntries fs p raw₁ = listEntries fs p raw₂ :=
  fun fs p _ _ h => listEntries_perm_eq fs p h

/-- C7 witness: two enumeration orders of the same snapshot produce the
same listing. -/
theorem lister_deterministic_witness :
    listEntries exFS ["root", "docs"] [some "C", some "A", some "B"] =
      listEntries exFS ["root", "docs"] [some "B", some "C", some "A"] :=
  lister_deterministic exFS ["root", "docs"] _ _ (by decide)
